import Mathlib

/-!
Verification of the lazy remote-backed registry abstraction in
`dissect/target/loaders/cb.py` (`CbRegistry`, `CbRegistryHive`,
`CbRegistryKey`, `CbRegistryValue`).

Python strings are modelled as Lean `String`s; the Python string
operations the source uses (`str.lower`, `str.split`, `str.join`,
`bytes.fromhex`, `int(...)`) are modelled over the underlying character
list, restricted to ASCII (the source only ever handles ASCII registry
paths, hex digits and decimal digits).

The remote session (`cbc_sdk` `LiveResponseSession`, an external
collaborator) is modelled as a function from a key path to either a
fetched result or an error.  Statefulness of a key node (its `_data`
memoization cell) is modelled by explicit state passing: every operation
returns the result, the node state after the call, and the number of
remote `list_registry_keys_and_values` calls it issued.
-/

set_option autoImplicit false

/-- ASCII model of Python `str.lower` on one character. -/
def pyLowerChar (c : Char) : Char :=
  if 'A' ≤ c ∧ c ≤ 'Z' then Char.ofNat (c.toNat + 32) else c

/-- Python `str.lower()` (ASCII). -/
def pyLower (s : String) : String := ⟨s.data.map pyLowerChar⟩

/-- Helper for Python `str.split(sep)` with a one-character separator:
`acc` holds the current (reversed) chunk. -/
def splitOnCharAux (sep : Char) : List Char → List Char → List (List Char)
  | [], acc => [acc.reverse]
  | c :: cs, acc =>
    if c = sep then acc.reverse :: splitOnCharAux sep cs []
    else splitOnCharAux sep cs (c :: acc)

/-- Python `s.split(sep)` for a one-character separator `sep`
(e.g. `key.split("\\")`, `data.split(",")`).  Always returns at least
one chunk; `"".split(sep) == [""]`. -/
def pySplitChar (s : String) (sep : Char) : List String :=
  (splitOnCharAux sep s.data []).map (fun cs => ⟨cs⟩)

/-- Python `"\\".join([a, b])`. -/
def backslashJoin (a b : String) : String := ⟨a.data ++ '\\' :: b.data⟩

/-- Python ASCII whitespace (the characters `bytes.fromhex` skips and
`int()` strips). -/
def isPyWhitespace (c : Char) : Bool :=
  c == ' ' || c == '\t' || c == '\n' || c == '\r' || c == '\x0b' || c == '\x0c'

/-- Value of a hex digit, upper or lower case (`bytes.fromhex` accepts
both). -/
def hexDigitVal? (c : Char) : Option Nat :=
  if '0' ≤ c ∧ c ≤ '9' then some (c.toNat - 48)
  else if 'a' ≤ c ∧ c ≤ 'f' then some (c.toNat - 87)
  else if 'A' ≤ c ∧ c ≤ 'F' then some (c.toNat - 55)
  else none

/-- Python `bytes.fromhex`: two hex digits per byte, ASCII whitespace
skipped between byte pairs (not inside a pair); anything else raises
`ValueError` (here: `none`). -/
def fromhexAux : List Char → Option (List Nat)
  | [] => some []
  | c :: cs =>
    if isPyWhitespace c then fromhexAux cs
    else
      match hexDigitVal? c, cs with
      | some hi, c2 :: cs2 =>
        match hexDigitVal? c2 with
        | some lo => (fromhexAux cs2).map (fun bs => (16 * hi + lo) :: bs)
        | none => none
      | _, _ => none

/-- Python `bytes.fromhex(s)`. -/
def bytesFromhex (s : String) : Option (List Nat) := fromhexAux s.data

/-- ASCII decimal digit test. -/
def isAsciiDigit (c : Char) : Bool := decide ('0' ≤ c ∧ c ≤ '9')

/-- Numeric value of an ASCII decimal digit. -/
def digitVal (c : Char) : Nat := c.toNat - 48

/-- Digits of a Python base-10 integer literal after the first digit:
single underscores are allowed between digits (PEP 515), nothing else. -/
def pyDigitsAux : List Char → Nat → Option Nat
  | [], acc => some acc
  | c :: cs, acc =>
    if c = '_' then
      match cs with
      | c2 :: cs2 =>
        if isAsciiDigit c2 then pyDigitsAux cs2 (acc * 10 + digitVal c2) else none
      | [] => none
    else if isAsciiDigit c then pyDigitsAux cs (acc * 10 + digitVal c) else none

/-- An unsigned Python decimal literal: must start with a digit. -/
def pyNatDigits : List Char → Option Nat
  | [] => none
  | c :: cs => if isAsciiDigit c then pyDigitsAux cs (digitVal c) else none

/-- Optional sign followed by an unsigned decimal literal. -/
def pySignedDigits : List Char → Option Int
  | [] => none
  | c :: cs =>
    if c = '-' then (pyNatDigits cs).map (fun n => -(Int.ofNat n))
    else if c = '+' then (pyNatDigits cs).map (fun n => Int.ofNat n)
    else (pyNatDigits (c :: cs)).map (fun n => Int.ofNat n)

/-- Strip leading and trailing ASCII whitespace (Python `int()` does
this before parsing). -/
def pyTrim (cs : List Char) : List Char :=
  ((cs.dropWhile fun c => isPyWhitespace c).reverse.dropWhile fun c => isPyWhitespace c).reverse

/-- Python `int(s)` on a string: surrounding whitespace stripped,
optional sign, base-10 ASCII digits with underscore group separators.
(Python additionally accepts non-ASCII unicode digits; those are outside
this ASCII model.)  `none` where Python raises `ValueError`. -/
def pyInt (s : String) : Option Int := pySignedDigits (pyTrim s.data)

/-- Errors of the registry layer, used as exception values:
`keyNotFound`/`valueNotFound` are `RegistryKeyNotFoundError` /
`RegistryValueNotFoundError`, `invalidEncoding` is the `ValueError`
raised by `bytes.fromhex` / `int`, `sessionError` is an arbitrary
failure raised by the remote session call, and `registryError` is a
generic registry-layer error (`RegistryError`) raised while registering
a hive mapping. -/
inductive RegErr where
  | keyNotFound : String → RegErr
  | valueNotFound : String → RegErr
  | invalidEncoding : RegErr
  | sessionError : String → RegErr
  | registryError : RegErr
deriving DecidableEq

/-- One raw value record as returned by the remote
`list_registry_keys_and_values` call. -/
structure ValueRecord where
  registry_name : String
  registry_data : String
  registry_type : String
deriving DecidableEq

/-- The structure fetched for one key: the dict
`{"sub_keys": [...], "values": [...]}` returned by the session (§6 of
the session interface: the result always carries exactly these two
keys). -/
structure KeyData where
  sub_keys : List String
  values : List ValueRecord
deriving DecidableEq

/-- The remote session, reduced to its one consumed operation
`list_registry_keys_and_values : path → result-or-failure`. -/
def Backend : Type := String → Except RegErr KeyData

/-- `CbRegistryHive`: a root key string bound to a session. -/
structure CbRegistryHive where
  session : Backend
  rootkey : String

/-- The decoded payload stored in `CbRegistryValue._value`: a byte
string, an arbitrary-precision integer, a list of strings, or the raw
string. -/
inductive PyValue where
  | bytes : List Nat → PyValue
  | int : Int → PyValue
  | strs : List String → PyValue
  | str : String → PyValue
deriving DecidableEq

/-- `CbRegistryValue` after a successful `__init__`: the hive
back-reference, `_name`, `_type` and the decoded `_value`. -/
structure CbRegistryValue where
  hive : CbRegistryHive
  _name : String
  _type : String
  _value : PyValue

/-- `CbRegistryValue.name` property. -/
def CbRegistryValue.name (v : CbRegistryValue) : String := v._name

/-- `CbRegistryValue.value` property. -/
def CbRegistryValue.value (v : CbRegistryValue) : PyValue := v._value

/-- `CbRegistryValue.type` property. -/
def CbRegistryValue.type (v : CbRegistryValue) : String := v._type

/-- `CbRegistryValue.__init__(hive, name, data, type_)`: decodes `data`
according to the wire tag `type_`.  `bytes.fromhex` / `int` failures are
the `ValueError` (`invalidEncoding`) escaping the constructor. -/
def CbRegistryValue.init (hive : CbRegistryHive) (name data type_ : String) :
    Except RegErr CbRegistryValue :=
  if type_ = "pbREG_BINARY" then
    match bytesFromhex data with
    | some bs => .ok ⟨hive, name, type_, .bytes bs⟩
    | none => .error .invalidEncoding
  else if type_ = "pbREG_DWORD" ∨ type_ = "pbREG_QWORD" then
    match pyInt data with
    | some n => .ok ⟨hive, name, type_, .int n⟩
    | none => .error .invalidEncoding
  else if type_ = "pbREG_MULTI_SZ" then
    .ok ⟨hive, name, type_, .strs (pySplitChar data ',')⟩
  else
    .ok ⟨hive, name, type_, .str data⟩

/-- `CbRegistryKey`: hive back-reference, full path string `key`, and
the `_data` memoization cell (`None` until the first successful
fetch). -/
structure CbRegistryKey where
  hive : CbRegistryHive
  key : String
  _data : Option KeyData

/-- `CbRegistryHive.key(key)`: pure construction of the node at
`rootkey + "\\" + key`; no fetch, no existence check. -/
def CbRegistryHive.key (h : CbRegistryHive) (key : String) : CbRegistryKey :=
  ⟨h, backslashJoin h.rootkey key, none⟩

/-- The `CbRegistryKey.data` property:

    if not self._data:
        self._data = self.hive.session.list_registry_keys_and_values(self.key)
    return self._data

A fetched result is a dict that always carries the two keys `sub_keys`
and `values`, hence is non-empty and truthy, so `not self._data` holds
exactly when `_data` is still `None`.  Returns the result (or the
exception escaping the session call), the node state after the call,
and the number of remote calls issued. -/
def CbRegistryKey.data (k : CbRegistryKey) :
    Except RegErr KeyData × CbRegistryKey × Nat :=
  match k._data with
  | some d => (.ok d, k, 0)
  | none =>
    match k.hive.session k.key with
    | .ok d => (.ok d, { k with _data := some d }, 1)
    | .error e => (.error e, k, 1)

/-- `CbRegistryKey.name` property: `self.key.split("\\")[-1]` (the
split result is never empty, so `[-1]` is its last element). -/
def CbRegistryKey.name (k : CbRegistryKey) : String :=
  (pySplitChar k.key '\\').getLastD ""

/-- `CbRegistryKey.path` property. -/
def CbRegistryKey.path (k : CbRegistryKey) : String := k.key

/-- `CbRegistryKey.timestamp` property: always `None`. -/
def CbRegistryKey.timestamp (_k : CbRegistryKey) : Option Unit := none

/-- `CbRegistryKey.subkey(subkey)`: case-insensitive scan of the fetched
`sub_keys` list; on a match, a fresh node is built from the
caller-supplied name (`"\\".join([self.key, subkey])`), otherwise
`RegistryKeyNotFoundError(subkey)` is raised. -/
def CbRegistryKey.subkey (k : CbRegistryKey) (subkey : String) :
    Except RegErr CbRegistryKey × CbRegistryKey × Nat :=
  let subkey_val := pyLower subkey
  match k.data with
  | (.error e, k2, n) => (.error e, k2, n)
  | (.ok d, k2, n) =>
    match d.sub_keys.find? (fun val => decide (pyLower val = subkey_val)) with
    | some _ => (.ok ⟨k2.hive, backslashJoin k2.key subkey, none⟩, k2, n)
    | none => (.error (.keyNotFound subkey), k2, n)

/-- Iterating `map(self.subkey, self.data["sub_keys"])` to exhaustion:
each entry is looked up through `subkey` (which re-reads the memoized
data), threading node state and accumulating the remote-call count. -/
def subkeysGo : List String → CbRegistryKey → Nat →
    Except RegErr (List CbRegistryKey) × CbRegistryKey × Nat
  | [], k, n => (.ok [], k, n)
  | s :: ss, k, n =>
    match k.subkey s with
    | (.error e, k2, n2) => (.error e, k2, n + n2)
    | (.ok c, k2, n2) =>
      match subkeysGo ss k2 (n + n2) with
      | (.ok rest, k3, n3) => (.ok (c :: rest), k3, n3)
      | (.error e, k3, n3) => (.error e, k3, n3)

/-- `CbRegistryKey.subkeys()`: `map(self.subkey, self.data["sub_keys"])`
(the argument `self.data["sub_keys"]` is evaluated when `subkeys()` is
called), iterated to exhaustion. -/
def CbRegistryKey.subkeys (k : CbRegistryKey) :
    Except RegErr (List CbRegistryKey) × CbRegistryKey × Nat :=
  match k.data with
  | (.error e, k2, n) => (.error e, k2, n)
  | (.ok d, k2, n) => subkeysGo d.sub_keys k2 n

/-- Decode one raw record through `CbRegistryValue.__init__`, as the
generator body of `values()` does. -/
def decodeRecord (hive : CbRegistryHive) (r : ValueRecord) :
    Except RegErr CbRegistryValue :=
  CbRegistryValue.init hive r.registry_name r.registry_data r.registry_type

/-- Iterating the generator returned by `values()` to exhaustion: each
record is decoded in order; a decode failure propagates out of `next()`
and finalizes the generator, so no later record is ever yielded.
Returns the yielded values and the escaping failure, if any. -/
def enumValues (hive : CbRegistryHive) : List ValueRecord →
    List CbRegistryValue × Option RegErr
  | [] => ([], none)
  | r :: rs =>
    match decodeRecord hive r with
    | .error e => ([], some e)
    | .ok v =>
      match enumValues hive rs with
      | (vs, err) => (v :: vs, err)

/-- `CbRegistryKey.values()`: a generator over
`self.data["values"]` (the outer iterable is evaluated at call time,
triggering the fetch), each record decoded through
`CbRegistryValue.__init__`; modelled as the full iteration of that
generator. -/
def CbRegistryKey.values (k : CbRegistryKey) :
    Except RegErr (List CbRegistryValue × Option RegErr) × CbRegistryKey × Nat :=
  match k.data with
  | (.error e, k2, n) => (.error e, k2, n)
  | (.ok d, k2, n) => (.ok (enumValues k2.hive d.values), k2, n)

/-- The loop body of `value()`: walk the decoded values produced by
`values()`, returning the first whose decoded name matches
case-insensitively; a record that fails to decode raises out of the
loop; an exhausted loop raises `RegistryValueNotFoundError(value)`. -/
def valueFindGo (hive : CbRegistryHive) (target orig : String) :
    List ValueRecord → Except RegErr CbRegistryValue
  | [] => .error (.valueNotFound orig)
  | r :: rs =>
    match decodeRecord hive r with
    | .error e => .error e
    | .ok v =>
      if pyLower v.name = target then .ok v else valueFindGo hive target orig rs

/-- `CbRegistryKey.value(value)`: case-insensitive linear search through
`self.values()`. -/
def CbRegistryKey.value (k : CbRegistryKey) (value : String) :
    Except RegErr CbRegistryValue × CbRegistryKey × Nat :=
  let reg_value := pyLower value
  match k.data with
  | (.error e, k2, n) => (.error e, k2, n)
  | (.ok d, k2, n) => (valueFindGo k2.hive reg_value value d.values, k2, n)

/-- The state built by `CbRegistry._init_registry`: the hives registered
under their logical names (`add_hive`) and the rootkey-to-logical-name
mapping (`map_hive`). -/
structure MapperState where
  _hives : List (String × CbRegistryHive)
  _map : List (String × String)

/-- Modelled from the spec: `RegistryPlugin.add_hive` and
`RegistryPlugin.map_hive` (the registry-orchestration collaborator) are
not among the sources under verification.  Per the spec, registering one
mapping entry wraps the hive under its logical name and establishes the
rootkey-to-logical-name mapping, and either step may raise a
registry-layer error, in which case the entry leaves no registration
behind.  `register hive_name rootkey` says whether the entry's
registration succeeds; the loop is

    for hive_name, rootkey in self.MAPPINGS.items():
        try:
            hive = CbRegistryHive(self.session, rootkey)
            self.add_hive(hive_name, hive, None)
            self.map_hive(rootkey, hive)
        except RegistryError:
            continue
-/
def initRegistryGo (session : Backend) (register : String → String → Bool) :
    List (String × String) → MapperState → MapperState
  | [], st => st
  | (hive_name, rootkey) :: rest, st =>
    if register hive_name rootkey then
      initRegistryGo session register rest
        { _hives := st._hives ++ [(hive_name, CbRegistryHive.mk session rootkey)],
          _map := st._map ++ [(rootkey, hive_name)] }
    else
      initRegistryGo session register rest st

/-- `CbRegistry._init_registry`, run over a table of
`(hive_name, rootkey)` mapping entries. -/
def CbRegistry.init_registry (session : Backend)
    (register : String → String → Bool)
    (mappings : List (String × String)) : MapperState :=
  initRegistryGo session register mappings ⟨[], []⟩

/-- Spec-side ("hex-encoded byte string"): exactly two hex digits per
byte, nothing else. -/
def specHexDecode : List Char → Option (List Nat)
  | [] => some []
  | [_] => none
  | hi :: lo :: cs =>
    match hexDigitVal? hi, hexDigitVal? lo with
    | some h, some l => (specHexDecode cs).map (fun bs => (16 * h + l) :: bs)
    | _, _ => none

/-- Spec-side: digits of a base-10 ASCII integer string, most
significant first. -/
def digitsToNat : List Char → Nat → Nat
  | [], acc => acc
  | c :: cs, acc => digitsToNat cs (acc * 10 + digitVal c)

/-- Spec-side: a non-empty all-digit string. -/
def specDigits (cs : List Char) : Option Nat :=
  if cs ≠ [] ∧ cs.all isAsciiDigit then some (digitsToNat cs 0) else none

/-- Spec-side ("base-10 ASCII integer string"): optional sign, then one
or more ASCII digits. -/
def specDecInt (s : String) : Option Int :=
  match s.data with
  | [] => none
  | c :: cs =>
    if c = '-' then (specDigits cs).map (fun n => -(Int.ofNat n))
    else if c = '+' then (specDigits cs).map (fun n => Int.ofNat n)
    else (specDigits (c :: cs)).map (fun n => Int.ofNat n)

/-- Spec-side: decode every record of a list, failing on the first
malformed one ("every well-formed value"). -/
def decodeAll (hive : CbRegistryHive) : List ValueRecord →
    Except RegErr (List CbRegistryValue)
  | [] => .ok []
  | r :: rs =>
    match decodeRecord hive r with
    | .error e => .error e
    | .ok v =>
      match decodeAll hive rs with
      | .ok vs => .ok (v :: vs)
      | .error e => .error e

/-- A concrete offline backend: every remote call fails. -/
def demoBackend : Backend := fun _ => .error (.sessionError "offline")

/-- A concrete hive bound to the failing backend. -/
def demoHive : CbRegistryHive := ⟨demoBackend, "HKEY_LOCAL_MACHINE"⟩

/-- Concrete fetched data: two child keys and one well-formed dword
value. -/
def demoData : KeyData := ⟨["System", "Run"], [⟨"B", "1", "pbREG_DWORD"⟩]⟩

/-- A node whose data is already memoized. -/
def demoNode : CbRegistryKey := ⟨demoHive, "HKEY_LOCAL_MACHINE\\X", some demoData⟩

/-- A backend whose every remote call succeeds with `demoData`. -/
def okBackend : Backend := fun _ => .ok demoData

/-- A hive bound to the succeeding backend. -/
def okHive : CbRegistryHive := ⟨okBackend, "HKEY_LOCAL_MACHINE"⟩

/-- A memoized node whose middle value record carries malformed hex for
its binary tag, flanked by two well-formed binary records. -/
def cxValuesNode : CbRegistryKey :=
  ⟨demoHive, "HKEY_LOCAL_MACHINE\\X",
   some ⟨[], [⟨"a", "41", "pbREG_BINARY"⟩, ⟨"b", "zz", "pbREG_BINARY"⟩,
              ⟨"c", "43", "pbREG_BINARY"⟩]⟩⟩

/-- The decoded first record of `cxValuesNode`. -/
def cxValA : CbRegistryValue := ⟨demoHive, "a", "pbREG_BINARY", .bytes [65]⟩

/-- The well-formed third record of `cxValuesNode` and its decoding. -/
def cxRecC : ValueRecord := ⟨"c", "43", "pbREG_BINARY"⟩

/-- The decoded third record of `cxValuesNode`. -/
def cxValC : CbRegistryValue := ⟨demoHive, "c", "pbREG_BINARY", .bytes [67]⟩

/-- A memoized node whose first value record is malformed and does not
match the name "b", while its second record is well-formed and does. -/
def cxValueNode : CbRegistryKey :=
  ⟨demoHive, "HKEY_LOCAL_MACHINE\\Y",
   some ⟨[], [⟨"x", "zz", "pbREG_BINARY"⟩, ⟨"B", "1", "pbREG_DWORD"⟩]⟩⟩

/-! ## Basic lemmas about the memoization cell -/

/-- A node whose cell is populated returns it without a remote call. -/
theorem data_memo : ∀ (k : CbRegistryKey) (d : KeyData), k._data = some d →
    k.data = (.ok d, k, 0)
  | ⟨_, _, some _⟩, _, rfl => rfl

/-- A first successful fetch issues one remote call and populates the
cell. -/
theorem data_fetch_ok (k : CbRegistryKey) (d : KeyData) (h : k._data = none)
    (hs : k.hive.session k.key = .ok d) :
    k.data = (.ok d, { k with _data := some d }, 1) := by
  obtain ⟨hv, ky, dat⟩ := k
  simp only at h hs
  subst h
  simp only [CbRegistryKey.data, hs]

/-- A failed fetch issues one remote call, propagates the error
unchanged and leaves the cell empty. -/
theorem data_fetch_err (k : CbRegistryKey) (e : RegErr) (h : k._data = none)
    (hs : k.hive.session k.key = .error e) :
    k.data = (.error e, k, 1) := by
  obtain ⟨hv, ky, dat⟩ := k
  simp only at h hs
  subst h
  simp only [CbRegistryKey.data, hs]

/-- On a memoized node, `subkey` leaves the node unchanged and issues no
remote call, whatever its result. -/
theorem subkey_memo (k : CbRegistryKey) (d : KeyData) (s : String)
    (h : k._data = some d) : ∃ r, k.subkey s = (r, k, 0) := by
  simp only [CbRegistryKey.subkey, data_memo k d h]
  cases d.sub_keys.find? fun val => decide (pyLower val = pyLower s) <;> exact ⟨_, rfl⟩

/-- On a memoized node, the `subkeys` iteration leaves the node
unchanged and issues no remote call. -/
theorem subkeysGo_memo (d : KeyData) : ∀ (ss : List String)
    (k : CbRegistryKey) (n : Nat), k._data = some d →
    ∃ r, subkeysGo ss k n = (r, k, n)
  | [], _, _, _ => ⟨.ok [], rfl⟩
  | s :: ss, k, n, h => by
    obtain ⟨r, hks⟩ := subkey_memo k d s h
    cases r with
    | error e => exact ⟨.error e, by simp [subkeysGo, hks]⟩
    | ok c =>
      obtain ⟨r3, hgo⟩ := subkeysGo_memo d ss k n h
      cases r3 with
      | error e => exact ⟨.error e, by simp [subkeysGo, hks, hgo]⟩
      | ok rest => exact ⟨.ok (c :: rest), by simp [subkeysGo, hks, hgo]⟩

/-! ## C1, C4: memoization of the fetch -/

/-- C1: for a key node whose first data access completed successfully
(one remote `list_registry_keys_and_values` call returned `d`), every
subsequent `subkey`, `subkeys`, `value` or `values` call on that node
instance issues zero additional remote calls and leaves the node
unchanged — regardless of the contents of the fetched result `d`. -/
theorem c1_fetch_memoized (k₀ : CbRegistryKey) (d : KeyData)
    (h₀ : k₀._data = none) (hs : k₀.hive.session k₀.key = .ok d) :
    k₀.data = (.ok d, { k₀ with _data := some d }, 1) ∧
    ∀ (k : CbRegistryKey), k._data = some d →
      (∀ s, (k.subkey s).2 = (k, 0)) ∧
      (k.subkeys).2 = (k, 0) ∧
      (∀ v, (k.value v).2 = (k, 0)) ∧
      (k.values).2 = (k, 0) := by
  refine ⟨data_fetch_ok k₀ d h₀ hs, fun k h => ⟨?_, ?_, ?_, ?_⟩⟩
  · intro s
    obtain ⟨r, hks⟩ := subkey_memo k d s h
    rw [hks]
  · simp only [CbRegistryKey.subkeys, data_memo k d h]
    obtain ⟨r, hgo⟩ := subkeysGo_memo d d.sub_keys k 0 h
    rw [hgo]
  · intro v
    simp only [CbRegistryKey.value, data_memo k d h]
  · simp only [CbRegistryKey.values, data_memo k d h]

/-- Witness for C1: a concrete fresh node over a succeeding backend,
fetched once and then traversed without further remote calls. -/
theorem c1_fetch_memoized_witness :
    (okHive.key "X").data =
      (.ok demoData, { okHive.key "X" with _data := some demoData }, 1) ∧
    (({ okHive.key "X" with _data := some demoData } : CbRegistryKey).subkeys).2 =
      ({ okHive.key "X" with _data := some demoData }, 0) :=
  ⟨(c1_fetch_memoized (okHive.key "X") demoData rfl rfl).1,
   ((c1_fetch_memoized (okHive.key "X") demoData rfl rfl).2
      { okHive.key "X" with _data := some demoData } rfl).2.1⟩

/-- C4: if the session call raises on the first data access, the error
propagates to the caller unchanged, the memoization cell stays
unpopulated, and a second data access on the same node instance issues a
new remote call (again exactly one) rather than returning a cached
failure. -/
theorem c4_failed_fetch_not_cached (k : CbRegistryKey) (e : RegErr)
    (h₀ : k._data = none) (hs : k.hive.session k.key = .error e) :
    k.data = (.error e, k, 1) ∧ ((k.data).2.1).data = (.error e, k, 1) := by
  have h1 := data_fetch_err k e h₀ hs
  refine ⟨h1, ?_⟩
  rw [h1]
  exact h1

/-- Witness for C4: a concrete fresh node over a failing backend. -/
theorem c4_failed_fetch_not_cached_witness :
    (demoHive.key "X").data =
      (.error (.sessionError "offline"), demoHive.key "X", 1) ∧
    (((demoHive.key "X").data).2.1).data =
      (.error (.sessionError "offline"), demoHive.key "X", 1) :=
  c4_failed_fetch_not_cached (demoHive.key "X") (.sessionError "offline") rfl rfl

/-! ## C5, C8: subkey lookup and subkeys enumeration -/

/-- A list containing an element satisfying `p` has a `find?` hit. -/
theorem find?_some_of_mem {α : Type} (p : α → Bool) : ∀ (l : List α),
    (∃ x ∈ l, p x = true) → ∃ y, l.find? p = some y
  | [], h => by simp at h
  | a :: l, h => by
    cases hpa : p a with
    | true => exact ⟨a, by simp [List.find?, hpa]⟩
    | false =>
      obtain ⟨x, hx, hpx⟩ := h
      cases hx with
      | head =>
        rw [hpa] at hpx
        cases hpx
      | tail _ hx =>
        obtain ⟨y, hy⟩ := find?_some_of_mem p l ⟨x, hx, hpx⟩
        exact ⟨y, by simp [List.find?, hpa, hy]⟩

/-- A list with no element satisfying `p` has no `find?` hit. -/
theorem find?_none_of_all {α : Type} (p : α → Bool) : ∀ (l : List α),
    (∀ x ∈ l, p x = false) → l.find? p = none
  | [], _ => rfl
  | a :: l, h => by
    have hpa := h a (by simp)
    have ih := find?_none_of_all p l (fun x hx => h x (by simp [hx]))
    simp [List.find?, hpa, ih]

/-- C5: on a node with memoized data, `subkey(name)` succeeds exactly
when some entry of the fetched child list matches `name`
case-insensitively, and then returns a fresh node whose path appends the
caller-supplied `name` in the caller's casing (so that requests
differing only in casing yield case-insensitively equal paths); with no
case-insensitive match it raises `RegistryKeyNotFoundError(name)`. -/
theorem c5_subkey_case_insensitive (k : CbRegistryKey) (d : KeyData)
    (s : String) (h : k._data = some d) :
    ((∃ e ∈ d.sub_keys, pyLower e = pyLower s) →
      k.subkey s = (.ok ⟨k.hive, backslashJoin k.key s, none⟩, k, 0)) ∧
    ((∀ e ∈ d.sub_keys, pyLower e ≠ pyLower s) →
      k.subkey s = (.error (.keyNotFound s), k, 0)) := by
  constructor
  · intro hex
    obtain ⟨y, hy⟩ := find?_some_of_mem
      (fun val => decide (pyLower val = pyLower s)) d.sub_keys
      (by obtain ⟨e, he, hes⟩ := hex; exact ⟨e, he, decide_eq_true hes⟩)
    simp [CbRegistryKey.subkey, data_memo k d h, hy]
  · intro hall
    have hn := find?_none_of_all
      (fun val => decide (pyLower val = pyLower s)) d.sub_keys
      (fun x hx => decide_eq_false (hall x hx))
    simp [CbRegistryKey.subkey, data_memo k d h, hn]

/-- Witness for C5 at a concrete node: `subkey` hits for three casings
of "System" and misses for "missing". -/
theorem c5_subkey_case_insensitive_witness :
    demoNode.subkey "system" =
      (.ok ⟨demoHive, backslashJoin "HKEY_LOCAL_MACHINE\\X" "system", none⟩,
       demoNode, 0) ∧
    demoNode.subkey "SYSTEM" =
      (.ok ⟨demoHive, backslashJoin "HKEY_LOCAL_MACHINE\\X" "SYSTEM", none⟩,
       demoNode, 0) ∧
    demoNode.subkey "missing" = (.error (.keyNotFound "missing"), demoNode, 0) :=
  ⟨(c5_subkey_case_insensitive demoNode demoData "system" rfl).1 (by decide),
   (c5_subkey_case_insensitive demoNode demoData "SYSTEM" rfl).1 (by decide),
   (c5_subkey_case_insensitive demoNode demoData "missing" rfl).2 (by decide)⟩

/-- Every entry of the child list resolves through `subkey` to a fresh
node built from that entry, in order, with no remote call. -/
theorem subkeysGo_complete (d : KeyData) : ∀ (ss : List String)
    (k : CbRegistryKey) (n : Nat), k._data = some d →
    (∀ s ∈ ss, ∃ e ∈ d.sub_keys, pyLower e = pyLower s) →
    subkeysGo ss k n =
      (.ok (ss.map fun s => (⟨k.hive, backslashJoin k.key s, none⟩ : CbRegistryKey)),
       k, n)
  | [], _, _, _, _ => rfl
  | s :: ss, k, n, h, hm => by
    have hks := (c5_subkey_case_insensitive k d s h).1 (hm s (by simp))
    have ih := subkeysGo_complete d ss k n h (fun x hx => hm x (by simp [hx]))
    simp [subkeysGo, hks, ih]

/-- C8: on a node with memoized data, `subkeys()` yields exactly one key
node per entry of the memoized child list, in the fetched order, with no
remote call; since the node is left unchanged, re-invoking `subkeys()`
re-walks the cached list with zero further fetches. -/
theorem c8_subkeys_enumeration (k : CbRegistryKey) (d : KeyData)
    (h : k._data = some d) :
    k.subkeys =
      (.ok (d.sub_keys.map fun s =>
        (⟨k.hive, backslashJoin k.key s, none⟩ : CbRegistryKey)), k, 0) := by
  simp only [CbRegistryKey.subkeys, data_memo k d h]
  exact subkeysGo_complete d d.sub_keys k 0 h (fun s hs => ⟨s, hs, rfl⟩)

/-- Witness for C8 at a concrete node. -/
theorem c8_subkeys_enumeration_witness :
    demoNode.subkeys =
      (.ok [⟨demoHive, backslashJoin "HKEY_LOCAL_MACHINE\\X" "System", none⟩,
            ⟨demoHive, backslashJoin "HKEY_LOCAL_MACHINE\\X" "Run", none⟩],
       demoNode, 0) :=
  c8_subkeys_enumeration demoNode demoData rfl

/-! ## C2, C10: value decoding during enumeration and lookup -/

/-- A successful decode preserves the record's name. -/
theorem decodeRecord_name (hive : CbRegistryHive) (r : ValueRecord)
    (v : CbRegistryValue) (h : decodeRecord hive r = .ok v) :
    v._name = r.registry_name := by
  unfold decodeRecord CbRegistryValue.init at h
  split_ifs at h
  all_goals (try split at h)
  all_goals (cases h)
  all_goals rfl

/-- If every record decodes, iterating the `values()` generator yields
them all, in order, with no escaping error. -/
theorem enumValues_all_ok (hive : CbRegistryHive) : ∀ (rs : List ValueRecord)
    (vs : List CbRegistryValue), decodeAll hive rs = .ok vs →
    enumValues hive rs = (vs, none)
  | [], _, h => by
    cases h
    rfl
  | r :: rs, vs, h => by
    unfold decodeAll at h
    cases hd : decodeRecord hive r with
    | error e =>
      rw [hd] at h
      cases h
    | ok v =>
      rw [hd] at h
      cases hall : decodeAll hive rs with
      | error e =>
        rw [hall] at h
        cases h
      | ok vs2 =>
        rw [hall] at h
        cases h
        have ih := enumValues_all_ok hive rs vs2 hall
        simp [enumValues, hd, ih]

/-- Iterating the `values()` generator stops at the first malformed
record: the values decoded before it are yielded, its error escapes, and
no later record is reached. -/
theorem enumValues_abort (hive : CbRegistryHive) : ∀ (pre : List ValueRecord)
    (r : ValueRecord) (post : List ValueRecord) (vs : List CbRegistryValue)
    (e : RegErr), decodeAll hive pre = .ok vs → decodeRecord hive r = .error e →
    enumValues hive (pre ++ r :: post) = (vs, some e)
  | [], r, post, vs, e, hpre, hr => by
    cases hpre
    simp [enumValues, hr]
  | p :: pre, r, post, vs, e, hpre, hr => by
    unfold decodeAll at hpre
    cases hd : decodeRecord hive p with
    | error e2 =>
      rw [hd] at hpre
      cases hpre
    | ok w =>
      rw [hd] at hpre
      cases hall : decodeAll hive pre with
      | error e2 =>
        rw [hall] at hpre
        cases hpre
      | ok vs2 =>
        rw [hall] at hpre
        cases hpre
        have ih := enumValues_abort hive pre r post vs2 e hall hr
        simp [enumValues, hd, ih]

/-- C2 (amended): on a node with memoized data, `values()` decodes the
memoized records in order; if every record is well-formed all decoded
values are yielded, but a malformed record surfaces its decoding error
out of the iteration and aborts it, so only the well-formed values
preceding the first malformed record are yielded — later well-formed
values are not enumerated. -/
theorem c2_values_abort_at_first_malformed (k : CbRegistryKey) (d : KeyData)
    (h : k._data = some d) :
    k.values = (.ok (enumValues k.hive d.values), k, 0) ∧
    (∀ vs, decodeAll k.hive d.values = .ok vs →
      enumValues k.hive d.values = (vs, none)) ∧
    (∀ pre r post vs e, d.values = pre ++ r :: post →
      decodeAll k.hive pre = .ok vs → decodeRecord k.hive r = .error e →
      enumValues k.hive d.values = (vs, some e)) := by
  refine ⟨?_, fun vs hall => enumValues_all_ok k.hive d.values vs hall,
    fun pre r post vs e hsplit hpre hr => ?_⟩
  · simp only [CbRegistryKey.values, data_memo k d h]
  · rw [hsplit]
    exact enumValues_abort k.hive pre r post vs e hpre hr

/-- Witness for the amended C2: full enumeration on an all-well-formed
node, and aborted enumeration on the node with a malformed middle
record. -/
theorem c2_values_abort_witness :
    demoNode.values = (.ok (enumValues demoHive demoData.values), demoNode, 0) ∧
    enumValues demoHive demoData.values =
      ([⟨demoHive, "B", "pbREG_DWORD", .int 1⟩], none) ∧
    enumValues demoHive
      [⟨"a", "41", "pbREG_BINARY"⟩, ⟨"b", "zz", "pbREG_BINARY"⟩, cxRecC] =
      ([cxValA], some .invalidEncoding) :=
  ⟨(c2_values_abort_at_first_malformed demoNode demoData rfl).1,
   (c2_values_abort_at_first_malformed demoNode demoData rfl).2.1
     [⟨demoHive, "B", "pbREG_DWORD", .int 1⟩] rfl,
   (c2_values_abort_at_first_malformed cxValuesNode
       ⟨[], [⟨"a", "41", "pbREG_BINARY"⟩, ⟨"b", "zz", "pbREG_BINARY"⟩, cxRecC]⟩
       rfl).2.2
     [⟨"a", "41", "pbREG_BINARY"⟩] ⟨"b", "zz", "pbREG_BINARY"⟩ [cxRecC]
     [cxValA] .invalidEncoding rfl rfl rfl⟩

/-- C2 counterexample: at `cxValuesNode` the enumeration yields only the
value before the malformed record, even though the third record is
well-formed — its decoded value is not among the yielded ones, refuting
"enumeration still yields every well-formed value". -/
theorem c2_counterexample :
    (cxValuesNode.values).1 = .ok ([cxValA], some .invalidEncoding) ∧
    decodeRecord demoHive cxRecC = .ok cxValC ∧
    cxValC ∉ [cxValA] := by
  refine ⟨rfl, rfl, ?_⟩
  intro hmem
  have heq : cxValC = cxValA := by simpa using hmem
  have hn : ("c" : String) = "a" := congrArg CbRegistryValue._name heq
  exact absurd hn (by decide)

/-- Records decoded and scanned in order: the first case-insensitive
match is returned, provided everything before it decodes. -/
theorem valueFindGo_first_match (hive : CbRegistryHive) (target orig : String) :
    ∀ (pre : List ValueRecord) (r : ValueRecord) (post : List ValueRecord)
      (vs : List CbRegistryValue) (v : CbRegistryValue),
      decodeAll hive pre = .ok vs →
      (∀ x ∈ pre, pyLower x.registry_name ≠ target) →
      decodeRecord hive r = .ok v → pyLower r.registry_name = target →
      valueFindGo hive target orig (pre ++ r :: post) = .ok v
  | [], r, post, vs, v, hpre, hno, hr, hm => by
    have hname := decodeRecord_name hive r v hr
    simp [valueFindGo, hr, CbRegistryValue.name, hname, hm]
  | p :: pre, r, post, vs, v, hpre, hno, hr, hm => by
    unfold decodeAll at hpre
    cases hd : decodeRecord hive p with
    | error e =>
      rw [hd] at hpre
      cases hpre
    | ok w =>
      rw [hd] at hpre
      cases hall : decodeAll hive pre with
      | error e =>
        rw [hall] at hpre
        cases hpre
      | ok vs2 =>
        have hnamep := decodeRecord_name hive p w hd
        have hnp := hno p (by simp)
        have ih := valueFindGo_first_match hive target orig pre r post vs2 v hall
          (fun x hx => hno x (by simp [hx])) hr hm
        simp [valueFindGo, hd, CbRegistryValue.name, hnamep, hnp, ih]

/-- C10 (amended): on a node with memoized data, if the requested name
has a case-insensitive match among the memoized records and every record
up to and including the first such match decodes successfully, then
`value(name)` returns the decoded value of that first match (earlier
records win; later case-insensitive duplicates are never returned), with
no remote call. -/
theorem c10_value_first_match (k : CbRegistryKey) (d : KeyData) (target : String)
    (pre post : List ValueRecord) (r : ValueRecord)
    (vs : List CbRegistryValue) (v : CbRegistryValue)
    (h : k._data = some d) (hsplit : d.values = pre ++ r :: post)
    (hpre : decodeAll k.hive pre = .ok vs)
    (hno : ∀ x ∈ pre, pyLower x.registry_name ≠ pyLower target)
    (hr : decodeRecord k.hive r = .ok v)
    (hm : pyLower r.registry_name = pyLower target) :
    k.value target = (.ok v, k, 0) := by
  simp only [CbRegistryKey.value, data_memo k d h]
  rw [hsplit]
  rw [valueFindGo_first_match k.hive (pyLower target) target pre r post vs v
    hpre hno hr hm]

/-- Witness for the amended C10 at a concrete node: the dword value "B"
is found under the request "b". -/
theorem c10_value_first_match_witness :
    demoNode.value "b" = (.ok ⟨demoHive, "B", "pbREG_DWORD", .int 1⟩, demoNode, 0) :=
  c10_value_first_match demoNode demoData "b" [] [] ⟨"B", "1", "pbREG_DWORD"⟩
    [] ⟨demoHive, "B", "pbREG_DWORD", .int 1⟩ rfl rfl rfl (by simp) rfl (by decide)

/-- C10 counterexample: at `cxValueNode` the request "b" has a
case-insensitive match (the well-formed second record "B"), yet
`value("b")` does not return its decoded value: the malformed earlier
record aborts the scan with its decode error. -/
theorem c10_counterexample :
    (cxValueNode.value "b").1 = .error .invalidEncoding ∧
    pyLower "B" = pyLower "b" ∧
    (cxValueNode.value "b").1 ≠ .ok ⟨demoHive, "B", "pbREG_DWORD", .int 1⟩ := by
  refine ⟨rfl, by decide, ?_⟩
  intro hcontra
  rw [show (cxValueNode.value "b").1 = .error .invalidEncoding from rfl] at hcontra
  cases hcontra

/-! ## C3: partial-failure-tolerant mapper initialization -/

/-- Characterization of the registration loop: entries whose
registration raises are skipped, all others are registered in order, and
the loop always returns (never re-raises). -/
theorem initRegistryGo_spec (session : Backend)
    (register : String → String → Bool) : ∀ (ms : List (String × String))
    (st : MapperState),
    initRegistryGo session register ms st =
      ⟨st._hives ++ (ms.filter fun m => register m.1 m.2).map
         (fun m => (m.1, CbRegistryHive.mk session m.2)),
       st._map ++ (ms.filter fun m => register m.1 m.2).map
         (fun m => (m.2, m.1))⟩
  | [], st => by simp [initRegistryGo]
  | (a, b) :: ms, st => by
    have ih := initRegistryGo_spec session register ms
    cases hr : register a b with
    | true => simp [initRegistryGo, hr, ih, List.filter_cons]
    | false => simp [initRegistryGo, hr, ih, List.filter_cons]

/-- C3: mapper initialization is partial-failure-tolerant: it is a total
function of the mapping table (it never re-raises), every entry whose
registration raises a registry-layer error is skipped while all
remaining entries are still processed in order; in particular with three
configured mappings of which only the second fails, the mapper exposes
exactly the hives of the first and third mappings. -/
theorem c3_mapper_tolerates_entry_failure (session : Backend)
    (register : String → String → Bool) (mappings : List (String × String)) :
    CbRegistry.init_registry session register mappings =
      ⟨(mappings.filter fun m => register m.1 m.2).map
         (fun m => (m.1, CbRegistryHive.mk session m.2)),
       (mappings.filter fun m => register m.1 m.2).map (fun m => (m.2, m.1))⟩ ∧
    ∀ (m₁ m₂ m₃ : String × String),
      register m₁.1 m₁.2 = true → register m₂.1 m₂.2 = false →
      register m₃.1 m₃.2 = true →
      (CbRegistry.init_registry session register [m₁, m₂, m₃])._hives =
        [(m₁.1, CbRegistryHive.mk session m₁.2),
         (m₃.1, CbRegistryHive.mk session m₃.2)] := by
  constructor
  · have hgo := initRegistryGo_spec session register mappings ⟨[], []⟩
    simpa [CbRegistry.init_registry] using hgo
  · intro m₁ m₂ m₃ h1 h2 h3
    have hgo := initRegistryGo_spec session register [m₁, m₂, m₃] ⟨[], []⟩
    simp [CbRegistry.init_registry, hgo, List.filter_cons, h1, h2, h3]

/-- Witness for C3: three concrete mappings where exactly the second
registration fails. -/
theorem c3_mapper_tolerates_entry_failure_witness :
    (CbRegistry.init_registry demoBackend (fun nm _ => decide (nm ≠ "SAM"))
        [("software", "HKLM\\SOFTWARE"), ("SAM", "HKLM\\SAM"),
         ("system", "HKLM\\SYSTEM")])._hives =
      [("software", CbRegistryHive.mk demoBackend "HKLM\\SOFTWARE"),
       ("system", CbRegistryHive.mk demoBackend "HKLM\\SYSTEM")] :=
  (c3_mapper_tolerates_entry_failure demoBackend (fun nm _ => decide (nm ≠ "SAM"))
      [("software", "HKLM\\SOFTWARE"), ("SAM", "HKLM\\SAM"),
       ("system", "HKLM\\SYSTEM")]).2
    ("software", "HKLM\\SOFTWARE") ("SAM", "HKLM\\SAM")
    ("system", "HKLM\\SYSTEM") (by decide) (by decide) (by decide)

/-! ## C9: pure node construction by the hive -/

/-- Splitting distributes over a join on the separator. -/
theorem splitOnCharAux_append (sep : Char) : ∀ (cs₁ cs₂ acc : List Char),
    splitOnCharAux sep (cs₁ ++ sep :: cs₂) acc =
      splitOnCharAux sep cs₁ acc ++ splitOnCharAux sep cs₂ []
  | [], cs₂, acc => by simp [splitOnCharAux]
  | c :: cs₁, cs₂, acc => by
    by_cases hc : c = sep <;>
      simp [splitOnCharAux, hc, splitOnCharAux_append sep cs₁ cs₂]

/-- A split never produces an empty chunk list. -/
theorem splitOnCharAux_ne_nil (sep : Char) : ∀ (cs acc : List Char),
    splitOnCharAux sep cs acc ≠ []
  | [], acc => by simp [splitOnCharAux]
  | c :: cs, acc => by
    by_cases hc : c = sep <;>
      simp [splitOnCharAux, hc, splitOnCharAux_ne_nil sep cs]

/-- The default of `getLastD` is irrelevant on a non-empty list. -/
theorem getLastD_irrel {α : Type} : ∀ (l : List α) (x y : α), l ≠ [] →
    l.getLastD x = l.getLastD y
  | _ :: _, _, _, _ => by rw [List.getLastD_cons, List.getLastD_cons]

/-- `getLastD` of an append with a non-empty right part. -/
theorem getLastD_append_right {α : Type} : ∀ (l₁ l₂ : List α) (d : α),
    l₂ ≠ [] → (l₁ ++ l₂).getLastD d = l₂.getLastD d
  | [], _, _, _ => rfl
  | a :: l₁, l₂, d, h => by
    rw [List.cons_append, List.getLastD_cons,
      getLastD_append_right l₁ l₂ a h]
    exact getLastD_irrel l₂ a d h

/-- Python `split` on the backslash distributes over the source's
`"\\".join`. -/
theorem pySplitChar_backslashJoin (a b : String) :
    pySplitChar (backslashJoin a b) '\\' =
      pySplitChar a '\\' ++ pySplitChar b '\\' := by
  simp [pySplitChar, backslashJoin, splitOnCharAux_append]

/-- The name of a hive-constructed node is the last backslash-separated
segment of the requested relative path. -/
theorem hiveKey_name (h : CbRegistryHive) (p : String) :
    (h.key p).name = (pySplitChar p '\\').getLastD "" := by
  show (pySplitChar (backslashJoin h.rootkey p) '\\').getLastD "" =
    (pySplitChar p '\\').getLastD ""
  rw [pySplitChar_backslashJoin]
  refine getLastD_append_right _ _ _ ?_
  intro hnil
  simp only [pySplitChar, List.map_eq_nil_iff] at hnil
  exact splitOnCharAux_ne_nil '\\' p.data [] hnil

/-- C9: `hive.key(p)` is a pure construction — no remote call is
modelled or possible in its type, and no existence validation happens:
the node's path is `rootkey + "\" + p`, its memoization cell is empty,
it is bound to the constructing hive, and its name is the last
backslash-separated segment of the path; concretely, a hive rooted at
"HKEY_LOCAL_MACHINE" gives `key("SOFTWARE")` the path
`HKEY_LOCAL_MACHINE\SOFTWARE` and the name "SOFTWARE". -/
theorem c9_hive_key_pure (b : Backend) (root p : String) :
    ((⟨b, root⟩ : CbRegistryHive).key p).path = backslashJoin root p ∧
    ((⟨b, root⟩ : CbRegistryHive).key p)._data = none ∧
    ((⟨b, root⟩ : CbRegistryHive).key p).hive = ⟨b, root⟩ ∧
    ((⟨b, root⟩ : CbRegistryHive).key p).name =
      (pySplitChar p '\\').getLastD "" ∧
    ((⟨b, "HKEY_LOCAL_MACHINE"⟩ : CbRegistryHive).key "SOFTWARE").path =
      "HKEY_LOCAL_MACHINE\\SOFTWARE" ∧
    ((⟨b, "HKEY_LOCAL_MACHINE"⟩ : CbRegistryHive).key "SOFTWARE").name =
      "SOFTWARE" :=
  ⟨rfl, rfl, rfl, hiveKey_name ⟨b, root⟩ p, rfl, rfl⟩

/-! ## C6: binary tag decoding -/

/-- Whitespace is not a hex digit. -/
theorem ws_hexDigit_none (c : Char) (h : isPyWhitespace c = true) :
    hexDigitVal? c = none := by
  simp only [isPyWhitespace, Bool.or_eq_true, beq_iff_eq] at h
  rcases h with ((((h | h) | h) | h) | h) | h <;> subst h <;> decide

/-- A hex digit is not whitespace. -/
theorem hexDigit_not_ws (c : Char) (v : Nat) (h : hexDigitVal? c = some v) :
    isPyWhitespace c = false := by
  cases hw : isPyWhitespace c with
  | false => rfl
  | true =>
    rw [ws_hexDigit_none c hw] at h
    cases h

/-- A strict hex encoding contains no whitespace. -/
theorem specHex_no_ws : ∀ (cs : List Char) (bs : List Nat),
    specHexDecode cs = some bs → ∀ c ∈ cs, isPyWhitespace c = false
  | [], _, _, _, hc => by cases hc
  | [a], bs, h, c, hc => by simp [specHexDecode] at h
  | a :: b :: cs, bs, h, c, hc => by
    unfold specHexDecode at h
    cases ha : hexDigitVal? a <;> cases hb : hexDigitVal? b <;> rw [ha, hb] at h
    case none.none | none.some | some.none => cases h
    case some.some hv lv =>
      rcases Option.map_eq_some'.mp h with ⟨bs2, hrest, _⟩
      cases hc with
      | head => exact hexDigit_not_ws a hv ha
      | tail _ hc2 =>
        cases hc2 with
        | head => exact hexDigit_not_ws b lv hb
        | tail _ hc3 => exact specHex_no_ws cs bs2 hrest c hc3

/-- On whitespace-free input, `bytes.fromhex` agrees with the strict
pairwise hex decoding. -/
theorem fromhex_eq_specHex : ∀ (cs : List Char),
    (∀ c ∈ cs, isPyWhitespace c = false) → fromhexAux cs = specHexDecode cs
  | [], _ => rfl
  | [a], h => by
    have ha := h a (by simp)
    unfold fromhexAux
    rw [ha]
    simp only [Bool.false_eq_true, if_false, specHexDecode]
    cases hva : hexDigitVal? a <;> rfl
  | a :: b :: cs, h => by
    have ha := h a (by simp)
    have ih := fromhex_eq_specHex cs (fun c hc => h c (by simp [hc]))
    unfold fromhexAux
    rw [ha]
    simp only [Bool.false_eq_true, if_false, specHexDecode]
    cases hva : hexDigitVal? a <;> cases hvb : hexDigitVal? b <;>
      simp [hva, hvb, ih]

/-- A strictly valid hex string is decoded identically by
`bytes.fromhex`. -/
theorem fromhex_of_specHex (cs : List Char) (bs : List Nat)
    (h : specHexDecode cs = some bs) : fromhexAux cs = some bs := by
  rw [fromhex_eq_specHex cs (specHex_no_ws cs bs h), h]

/-- C6: for a value record with the binary wire tag, a raw string that
is a hex encoding of the byte sequence `bs` decodes to exactly `bs`,
while a whitespace-free raw string that is not a hex encoding makes the
decode fail with the `ValueError` (`invalidEncoding`) visible to the
caller.  (Python's `bytes.fromhex` additionally tolerates ASCII
whitespace between byte pairs, which is why the failure half is stated
for whitespace-free strings.) -/
theorem c6_binary_decoding (hive : CbRegistryHive) (name h : String) :
    (∀ bs, specHexDecode h.data = some bs →
      CbRegistryValue.init hive name h "pbREG_BINARY" =
        .ok ⟨hive, name, "pbREG_BINARY", .bytes bs⟩) ∧
    ((∀ c ∈ h.data, isPyWhitespace c = false) → specHexDecode h.data = none →
      CbRegistryValue.init hive name h "pbREG_BINARY" =
        .error .invalidEncoding) := by
  constructor
  · intro bs hspec
    have hfh : bytesFromhex h = some bs := fromhex_of_specHex h.data bs hspec
    unfold CbRegistryValue.init
    rw [if_pos rfl, bytesFromhex] at *
    rw [hfh]
  · intro hws hspec
    have hfh : bytesFromhex h = none := by
      rw [bytesFromhex, fromhex_eq_specHex h.data hws, hspec]
    unfold CbRegistryValue.init
    rw [if_pos rfl]
    rw [hfh]

/-- Witness for C6: "4142" decodes to the bytes [65, 66]; "zz" fails
with the caller-visible decode error. -/
theorem c6_binary_decoding_witness :
    CbRegistryValue.init demoHive "v" "4142" "pbREG_BINARY" =
      .ok ⟨demoHive, "v", "pbREG_BINARY", .bytes [65, 66]⟩ ∧
    CbRegistryValue.init demoHive "v" "zz" "pbREG_BINARY" =
      .error .invalidEncoding :=
  ⟨(c6_binary_decoding demoHive "v" "4142").1 [65, 66] (by decide),
   (c6_binary_decoding demoHive "v" "zz").2 (by decide) (by decide)⟩

/-! ## C7: integer tag decoding -/

/-- A decimal digit is not whitespace. -/
theorem digit_not_ws (c : Char) (h : isAsciiDigit c = true) :
    isPyWhitespace c = false := by
  cases hw : isPyWhitespace c with
  | false => rfl
  | true =>
    simp only [isPyWhitespace, Bool.or_eq_true, beq_iff_eq] at hw
    rcases hw with ((((hw | hw) | hw) | hw) | hw) | hw <;> subst hw <;>
      exact absurd h (by decide)

/-- A decimal digit is not an underscore. -/
theorem digit_ne_underscore (c : Char) (h : isAsciiDigit c = true) :
    c ≠ '_' := by
  intro hc
  subst hc
  exact absurd h (by decide)

/-- On an all-digit tail, the Python digit scanner computes the base-10
value. -/
theorem pyDigitsAux_all_digits : ∀ (cs : List Char) (acc : Nat),
    cs.all isAsciiDigit = true → pyDigitsAux cs acc = some (digitsToNat cs acc)
  | [], _, _ => rfl
  | c :: cs, acc, h => by
    rw [List.all_cons, Bool.and_eq_true] at h
    obtain ⟨hc, hcs⟩ := h
    have hne := digit_ne_underscore c hc
    unfold pyDigitsAux
    rw [if_neg hne, if_pos hc]
    rw [pyDigitsAux_all_digits cs _ hcs]
    simp [digitsToNat]

/-- On an underscore-free tail that is not all digits, the Python digit
scanner fails. -/
theorem pyDigitsAux_fail : ∀ (cs : List Char) (acc : Nat),
    (∀ c ∈ cs, c ≠ '_') → cs.all isAsciiDigit = false →
    pyDigitsAux cs acc = none
  | [], _, _, h => by simp at h
  | c :: cs, acc, hu, h => by
    have hne := hu c (by simp)
    rw [List.all_cons] at h
    cases hc : isAsciiDigit c with
    | false =>
      unfold pyDigitsAux
      rw [if_neg hne, if_neg (by simp [hc])]
    | true =>
      rw [hc, Bool.true_and] at h
      unfold pyDigitsAux
      rw [if_neg hne, if_pos hc]
      exact pyDigitsAux_fail cs _ (fun x hx => hu x (by simp [hx])) h

/-- A spec-side unsigned decimal literal parses identically through the
Python scanner. -/
theorem pyNatDigits_of_specDigits (cs : List Char) (m : Nat)
    (h : specDigits cs = some m) : pyNatDigits cs = some m := by
  unfold specDigits at h
  by_cases hcond : cs ≠ [] ∧ cs.all isAsciiDigit = true
  · rw [if_pos hcond] at h
    obtain ⟨hne, hall⟩ := hcond
    cases h
    cases cs with
    | nil => exact absurd rfl hne
    | cons c cs =>
      rw [List.all_cons, Bool.and_eq_true] at hall
      obtain ⟨hc, hcs⟩ := hall
      show (if isAsciiDigit c = true then pyDigitsAux cs (digitVal c) else none) =
        some (digitsToNat (c :: cs) 0)
      rw [if_pos hc, pyDigitsAux_all_digits cs _ hcs]
      simp [digitsToNat]
  · rw [if_neg hcond] at h
    cases h

/-- A string that is not a spec-side unsigned decimal literal (and
contains no underscores) fails the Python scanner. -/
theorem pyNatDigits_fail (cs : List Char) (hu : ∀ c ∈ cs, c ≠ '_')
    (h : specDigits cs = none) : pyNatDigits cs = none := by
  unfold specDigits at h
  by_cases hcond : cs ≠ [] ∧ cs.all isAsciiDigit = true
  · rw [if_pos hcond] at h
    cases h
  · rw [if_neg hcond] at h
    cases cs with
    | nil => rfl
    | cons c cs =>
      have hall : (c :: cs).all isAsciiDigit = false := by
        cases hj : (c :: cs).all isAsciiDigit with
        | false => rfl
        | true => exact absurd ⟨List.cons_ne_nil c cs, hj⟩ hcond
      rw [List.all_cons] at hall
      cases hc : isAsciiDigit c with
      | false =>
        show (if isAsciiDigit c = true then pyDigitsAux cs (digitVal c) else none) =
          none
        rw [if_neg (by simp [hc])]
      | true =>
        rw [hc, Bool.true_and] at hall
        show (if isAsciiDigit c = true then pyDigitsAux cs (digitVal c) else none) =
          none
        rw [if_pos hc]
        exact pyDigitsAux_fail cs _ (fun x hx => hu x (by simp [hx])) hall

/-- `dropWhile` does nothing when no element satisfies the predicate. -/
theorem dropWhile_eq_self_of_not {α : Type} (p : α → Bool) :
    ∀ (l : List α), (∀ c ∈ l, p c = false) → l.dropWhile p = l
  | [], _ => rfl
  | a :: l, h => by simp [List.dropWhile_cons, h a (by simp)]

/-- Trimming a whitespace-free string does nothing. -/
theorem pyTrim_id (cs : List Char)
    (h : ∀ c ∈ cs, isPyWhitespace c = false) : pyTrim cs = cs := by
  unfold pyTrim
  rw [dropWhile_eq_self_of_not _ cs h,
    dropWhile_eq_self_of_not _ cs.reverse (fun c hc => h c (List.mem_reverse.mp hc)),
    List.reverse_reverse]

/-- One unfolding step of the sign dispatcher. -/
theorem pySignedDigits_cons (c : Char) (cs : List Char) :
    pySignedDigits (c :: cs) =
      if c = '-' then (pyNatDigits cs).map (fun n => -(Int.ofNat n))
      else if c = '+' then (pyNatDigits cs).map (fun n => Int.ofNat n)
      else (pyNatDigits (c :: cs)).map (fun n => Int.ofNat n) := rfl

/-- A spec-side signed decimal literal parses identically through
Python `int`. -/
theorem pyInt_of_specDecInt (s : String) (n : Int)
    (h : specDecInt s = some n) : pyInt s = some n := by
  obtain ⟨cs⟩ := s
  cases cs with
  | nil =>
    have h3 : (none : Option Int) = some n := h
    cases h3
  | cons c cs =>
    have h2 : (if c = '-' then (specDigits cs).map (fun m => -(Int.ofNat m))
        else if c = '+' then (specDigits cs).map (fun m => Int.ofNat m)
        else (specDigits (c :: cs)).map (fun m => Int.ofNat m)) = some n := h
    show pySignedDigits (pyTrim (c :: cs)) = some n
    by_cases hneg : c = '-'
    · rw [if_pos hneg] at h2
      rcases Option.map_eq_some'.mp h2 with ⟨m, hm, rfl⟩
      have hall : cs.all isAsciiDigit = true := by
        unfold specDigits at hm
        by_cases hco : cs ≠ [] ∧ cs.all isAsciiDigit = true
        · exact hco.2
        · rw [if_neg hco] at hm
          cases hm
      have hws : ∀ x ∈ c :: cs, isPyWhitespace x = false := by
        intro x hx
        cases hx with
        | head =>
          rw [hneg]
          decide
        | tail _ hx2 => exact digit_not_ws x (List.all_eq_true.mp hall x hx2)
      rw [pyTrim_id _ hws, pySignedDigits_cons, if_pos hneg,
        pyNatDigits_of_specDigits cs m hm]
      rfl
    · by_cases hpos : c = '+'
      · rw [if_neg hneg, if_pos hpos] at h2
        rcases Option.map_eq_some'.mp h2 with ⟨m, hm, rfl⟩
        have hall : cs.all isAsciiDigit = true := by
          unfold specDigits at hm
          by_cases hco : cs ≠ [] ∧ cs.all isAsciiDigit = true
          · exact hco.2
          · rw [if_neg hco] at hm
            cases hm
        have hws : ∀ x ∈ c :: cs, isPyWhitespace x = false := by
          intro x hx
          cases hx with
          | head =>
            rw [hpos]
            decide
          | tail _ hx2 => exact digit_not_ws x (List.all_eq_true.mp hall x hx2)
        rw [pyTrim_id _ hws, pySignedDigits_cons, if_neg hneg, if_pos hpos,
          pyNatDigits_of_specDigits cs m hm]
        rfl
      · rw [if_neg hneg, if_neg hpos] at h2
        rcases Option.map_eq_some'.mp h2 with ⟨m, hm, rfl⟩
        have hall : (c :: cs).all isAsciiDigit = true := by
          unfold specDigits at hm
          by_cases hco : c :: cs ≠ [] ∧ (c :: cs).all isAsciiDigit = true
          · exact hco.2
          · rw [if_neg hco] at hm
            cases hm
        have hws : ∀ x ∈ c :: cs, isPyWhitespace x = false :=
          fun x hx => digit_not_ws x (List.all_eq_true.mp hall x hx)
        rw [pyTrim_id _ hws, pySignedDigits_cons, if_neg hneg, if_neg hpos,
          pyNatDigits_of_specDigits (c :: cs) m hm]
        rfl

/-- A plain string (no whitespace, no underscores) that is not a
spec-side signed decimal literal fails Python `int`. -/
theorem pyInt_fail (s : String)
    (hplain : ∀ c ∈ s.data, isPyWhitespace c = false ∧ c ≠ '_')
    (h : specDecInt s = none) : pyInt s = none := by
  obtain ⟨cs⟩ := s
  show pySignedDigits (pyTrim cs) = none
  rw [pyTrim_id cs (fun c hc => (hplain c hc).1)]
  cases cs with
  | nil => rfl
  | cons c cs =>
    have h2 : (if c = '-' then (specDigits cs).map (fun m => -(Int.ofNat m))
        else if c = '+' then (specDigits cs).map (fun m => Int.ofNat m)
        else (specDigits (c :: cs)).map (fun m => Int.ofNat m)) = none := h
    rw [pySignedDigits_cons]
    by_cases hneg : c = '-'
    · rw [if_pos hneg] at h2
      rw [if_pos hneg, pyNatDigits_fail cs
        (fun x hx => (hplain x (List.mem_cons_of_mem c hx)).2)
        (Option.map_eq_none'.mp h2)]
      rfl
    · by_cases hpos : c = '+'
      · rw [if_neg hneg, if_pos hpos] at h2
        rw [if_neg hneg, if_pos hpos, pyNatDigits_fail cs
          (fun x hx => (hplain x (List.mem_cons_of_mem c hx)).2)
          (Option.map_eq_none'.mp h2)]
        rfl
      · rw [if_neg hneg, if_neg hpos] at h2
        rw [if_neg hneg, if_neg hpos, pyNatDigits_fail (c :: cs)
          (fun x hx => (hplain x hx).2)
          (Option.map_eq_none'.mp h2)]
        rfl

/-- C7: for a value record with either integer wire tag, a raw string
that is a base-10 ASCII integer literal of value `n` (64-bit range)
decodes to exactly the integer `n`, identically for `pbREG_DWORD` and
`pbREG_QWORD` (the decoder does not truncate to 32 bits); a plain
non-numeric raw string (no whitespace or underscores, which Python's
`int` additionally tolerates) fails with the caller-visible
`invalidEncoding` error under both tags. -/
theorem c7_integer_decoding (hive : CbRegistryHive) (name s : String) :
    (∀ n : Int, specDecInt s = some n → -(2 ^ 63) ≤ n → n < 2 ^ 64 →
      CbRegistryValue.init hive name s "pbREG_DWORD" =
        .ok ⟨hive, name, "pbREG_DWORD", .int n⟩ ∧
      CbRegistryValue.init hive name s "pbREG_QWORD" =
        .ok ⟨hive, name, "pbREG_QWORD", .int n⟩) ∧
    ((∀ c ∈ s.data, isPyWhitespace c = false ∧ c ≠ '_') →
      specDecInt s = none →
      CbRegistryValue.init hive name s "pbREG_DWORD" = .error .invalidEncoding ∧
      CbRegistryValue.init hive name s "pbREG_QWORD" = .error .invalidEncoding) := by
  constructor
  · intro n hs _ _
    have hp := pyInt_of_specDecInt s n hs
    constructor
    · unfold CbRegistryValue.init
      rw [if_neg (show ¬("pbREG_DWORD" = "pbREG_BINARY") by decide),
        if_pos (Or.inl rfl : "pbREG_DWORD" = "pbREG_DWORD" ∨
          "pbREG_DWORD" = "pbREG_QWORD"), hp]
    · unfold CbRegistryValue.init
      rw [if_neg (show ¬("pbREG_QWORD" = "pbREG_BINARY") by decide),
        if_pos (Or.inr rfl : "pbREG_QWORD" = "pbREG_DWORD" ∨
          "pbREG_QWORD" = "pbREG_QWORD"), hp]
  · intro hplain hs
    have hp := pyInt_fail s hplain hs
    constructor
    · unfold CbRegistryValue.init
      rw [if_neg (show ¬("pbREG_DWORD" = "pbREG_BINARY") by decide),
        if_pos (Or.inl rfl : "pbREG_DWORD" = "pbREG_DWORD" ∨
          "pbREG_DWORD" = "pbREG_QWORD"), hp]
    · unfold CbRegistryValue.init
      rw [if_neg (show ¬("pbREG_QWORD" = "pbREG_BINARY") by decide),
        if_pos (Or.inr rfl : "pbREG_QWORD" = "pbREG_DWORD" ∨
          "pbREG_QWORD" = "pbREG_QWORD"), hp]

/-- Witness for C7: "123" decodes to 123 under both integer tags; "abc"
fails under the dword tag. -/
theorem c7_integer_decoding_witness :
    CbRegistryValue.init demoHive "v" "123" "pbREG_DWORD" =
      .ok ⟨demoHive, "v", "pbREG_DWORD", .int 123⟩ ∧
    CbRegistryValue.init demoHive "v" "123" "pbREG_QWORD" =
      .ok ⟨demoHive, "v", "pbREG_QWORD", .int 123⟩ ∧
    CbRegistryValue.init demoHive "v" "abc" "pbREG_DWORD" =
      .error .invalidEncoding :=
  ⟨((c7_integer_decoding demoHive "v" "123").1 123 (by decide) (by decide)
      (by decide)).1,
   ((c7_integer_decoding demoHive "v" "123").1 123 (by decide) (by decide)
      (by decide)).2,
   ((c7_integer_decoding demoHive "v" "abc").2 (by decide) (by decide)).1⟩
